import Mathlib

/-!
# Verification of the Koney deception-policy controller and alert forwarder

Shallow embedding of the parts of the `dynatrace-oss/koney` repository that
the verified claims talk about:

* the fingerprint codec (`fingerprint.go`, two copies),
* the container-name matcher (`internal/controller/utils/matching.go`),
* the tracing-policy name generator and the Tetragon tracing-policy
  generator (`filesystoken` package),
* the alert ingestion pipeline of the alert forwarder (`tetragon.go`),
* the debouncer of the alert forwarder's HTTP trigger endpoint.

Go strings are modelled as `List Char`; Go byte-level behaviour is
irrelevant here because all the strings involved are ASCII.  Go `int` is
modelled as `Int`.  Fallible Go functions returning `(T, error)` are
modelled as pairs of a value and an `Option` error message.
-/

namespace Koney

/-- Conversion from Lean string literals to the `List Char` model of Go
strings. -/
def str (s : String) : List Char := s.data

/-- Model of Go `strings.HasPrefix`. -/
def goHasPrefix (s prefx : List Char) : Bool :=
  match prefx, s with
  | [], _ => true
  | _ :: _, [] => false
  | p :: ps, c :: cs => p = c && goHasPrefix cs ps

/-- Model of Go `strings.TrimPrefix`: drops `prefx` from the front of `s`
when it is a prefix, otherwise returns `s` unchanged. -/
def goTrimPrefix (s prefx : List Char) : List Char :=
  if goHasPrefix s prefx then s.drop prefx.length else s

/-- Model of Go `strings.Contains`: `sub` occurs as a contiguous substring
of `s`. -/
def goContains (s sub : List Char) : Bool :=
  goHasPrefix s sub ||
    match s with
    | [] => false
    | _ :: cs => goContains cs sub

/-! ## Fingerprint codec (`fingerprint.go`)

The repository holds two copies of this file: one in `alert-forwarder/`
(a `strings.Builder` loop) and one elsewhere in the module (building a
slice and joining it).  Both are embedded, in separate namespaces. -/

/-- The active fingerprint code (`const KoneyFingerprint = 1337`). -/
def KoneyFingerprint : Int := 1337

/-- Model of Go `strconv.FormatInt(code, 2)` on an `int64`: the binary
digits of the absolute value, most significant first, preceded by `'-'`
when negative.  `Nat.toDigits 2` produces exactly Go's digit string for
naturals, including `"0"` for zero. -/
def formatInt2 (code : Int) : List Char :=
  if code < 0 then '-' :: Nat.toDigits 2 code.natAbs
  else Nat.toDigits 2 code.toNat

/-- Model of Go `strconv.FormatInt(code, 10)` (used by `fmt.Sprintf`
with verb `%d`). -/
def formatInt10 (code : Int) : List Char :=
  if code < 0 then '-' :: Nat.toDigits 10 code.natAbs
  else Nat.toDigits 10 code.toNat

/-- Function `EncodeFingerprintInEcho` encodes the fingerprint for echo commands:
`fmt.Sprintf("KONEY_FINGERPRINT_%d", code)`. -/
def EncodeFingerprintInEcho (code : Int) : List Char :=
  str "KONEY_FINGERPRINT_" ++ formatInt10 code

/-- One token of the cat-form encoding: `"-u"` for the binary digit `'0'`,
`"-uu"` for every other digit character. -/
def catToken (bit : Char) : List Char :=
  if bit = '0' then str "-u" else str "-uu"

namespace AlertForwarder

/-- Function `EncodeFingerprintInCat` from `alert-forwarder/fingerprint.go`:
iterates over the binary digits with a `strings.Builder`, writing a space
before every token except the first. -/
def EncodeFingerprintInCat (code : Int) : List Char :=
  let binaryCode := formatInt2 code
  match binaryCode with
  | [] => []
  | b :: rest =>
      catToken b ++ rest.foldl (fun acc bit => acc ++ (' ' :: catToken bit)) []

end AlertForwarder

namespace ControllerCopy

/-- Function `EncodeFingerprintInCat` from the second copy of `fingerprint.go`:
appends one token per binary digit to a slice and joins the slice with
single spaces (`strings.Join(cipher, " ")`). -/
def EncodeFingerprintInCat (code : Int) : List Char :=
  let binaryCode := formatInt2 code
  let cipher := binaryCode.map catToken
  (cipher.intersperse (str " ")).flatten

end ControllerCopy

/-! ## Alert data model (`types.go`, modelled from the spec)

The file `types.go` of the alert forwarder is not part of the sources at
hand; its shape is fixed by the spec's alert-output schema (§6) and by how
`tetragon.go` reads the fields. -/

/-- Modelled from the spec: container metadata of an alert
(`pod.container` with `id` and `name`). -/
structure ContainerMetadata where
  id : List Char
  name : List Char
deriving DecidableEq

/-- Modelled from the spec: pod metadata of an alert
(`pod` with `name`, `namespace`, `container`). -/
structure PodMetadata where
  name : List Char
  namespace' : List Char
  container : ContainerMetadata
deriving DecidableEq

/-- Modelled from the spec: process metadata of an alert
(`process` with `pid`, `cwd`, `binary`, `arguments`). -/
structure ProcessMetadata where
  pid : Int
  cwd : List Char
  binary : List Char
  arguments : List Char
deriving DecidableEq

/-- Modelled from the spec: the `trap_type` values of an alert,
`filesystem_honeytoken` or `unknown`. -/
def TrapTypeUnknown : List Char := str "unknown"

/-- Modelled from the spec: the `trap_type` value for filesystem
honeytoken traps. -/
def TrapTypeFilesystemHoneytoken : List Char := str "filesystem_honeytoken"

/-- Modelled from the spec: the canonical alert record emitted by the
pipeline (`KoneyAlert` in `types.go`).  The `metadata` object currently
only ever carries a `file_path` entry, which may be JSON `null`; it is
modelled as `Option (Option (List Char))`: `none` when no metadata was
extracted, `some none` for `{"file_path": null}`. -/
structure KoneyAlert where
  timestamp : List Char
  deceptionPolicyName : Option (List Char)
  trapType : List Char
  metadata : Option (Option (List Char))
  pod : Option PodMetadata
  process : Option ProcessMetadata
deriving DecidableEq

/-! ## Raw Tetragon events (`tetragon.go`)

A raw event is a JSON object whose single payload section (in practice
`process_kprobe`) may carry a `policy_name`, a `function_name`, call
arguments, and `process`/`pod` metadata.  Go represents the event as
`map[string]interface{}` and scans the top-level values for those keys;
events here are modelled with the one payload section the probe emits. -/

/-- The `file_arg` object of a kprobe argument; `path` is absent when the
JSON field is missing or not a string. -/
structure FileArg where
  path : Option (List Char)
deriving DecidableEq

/-- One entry of the `args` array of a `process_kprobe` section. -/
structure KprobeArg where
  fileArg : Option FileArg
deriving DecidableEq

/-- The payload section of a raw Tetragon event (`process_kprobe`). -/
structure ProcessKprobe where
  policyName : Option (List Char)
  functionName : List Char
  args : List KprobeArg
  process : Option ProcessMetadata
  pod : Option PodMetadata
deriving DecidableEq

/-- A raw Tetragon event: an optional `process_kprobe` section and the
top-level `time` string. -/
structure TetragonEvent where
  processKprobe : Option ProcessKprobe
  time : List Char
deriving DecidableEq

/-- Function `extractTracingPolicyName` finds the `policy_name` field inside the
event's payload section, when present. -/
def extractTracingPolicyName (event : TetragonEvent) : Option (List Char) :=
  match event.processKprobe with
  | some kprobe => kprobe.policyName
  | none => none

/-- The file-access kernel functions recognised by
`extractMetadataForFilesystemHoneytoken`. -/
def fileAccessFns : List (List Char) :=
  [str "security_file_permission", str "security_mmap_file"]

/-- Function `extractMetadataForFilesystemHoneytoken`: for events on one of the
file-access functions, extract `args[0].file_arg.path` (possibly absent);
for other functions return no metadata (`nil` in Go). -/
def extractMetadataForFilesystemHoneytoken (processKprobe : ProcessKprobe) :
    Option (Option (List Char)) :=
  if processKprobe.functionName ∈ fileAccessFns then
    match processKprobe.args with
    | [] => some none
    | arg0 :: _ =>
        match arg0.fileArg with
        | none => some none
        | some fileArg => some fileArg.path
  else
    none

/-- Function `extractPodMetadata` reads `process.pod` from the payload section. -/
def extractPodMetadata (event : TetragonEvent) : Option PodMetadata :=
  match event.processKprobe with
  | some kprobe => kprobe.pod
  | none => none

/-- Function `extractProcessMetadata` reads `process` from the payload section. -/
def extractProcessMetadata (event : TetragonEvent) : Option ProcessMetadata :=
  match event.processKprobe with
  | some kprobe => kprobe.process
  | none => none

/-- Function `MapTetragonEvent` maps a raw Tetragon event to a `KoneyAlert`.  The
cluster lookup `resolveDeceptionPolicyName` is abstracted as the function
argument `resolve` (success or an error message); on resolution failure
the alert's `deceptionPolicyName` stays `nil` and mapping continues. -/
def MapTetragonEvent (resolve : List Char → Except (List Char) (List Char))
    (event : TetragonEvent) : KoneyAlert :=
  let deceptionPolicyName : Option (List Char) :=
    match extractTracingPolicyName event with
    | some tracingPolicyName =>
        match resolve tracingPolicyName with
        | .ok name => some name
        | .error _ => none
    | none => none
  let (trapType, metadata) :
      List Char × Option (Option (List Char)) :=
    match event.processKprobe with
    | some processKprobe =>
        match extractMetadataForFilesystemHoneytoken processKprobe with
        | some meta => (TrapTypeFilesystemHoneytoken, some meta)
        | none => (TrapTypeUnknown, none)
    | none => (TrapTypeUnknown, none)
  { timestamp := event.time
    deceptionPolicyName := deceptionPolicyName
    trapType := trapType
    metadata := metadata
    pod := extractPodMetadata event
    process := extractProcessMetadata event }

/-- Function `IsFilteredEvent`: an alert is filtered (dropped as self-induced) when
its process arguments contain the echo-form or the cat-form fingerprint
encoding of the active code. -/
def IsFilteredEvent (event : KoneyAlert) (fingerprintCode : Int) : Bool :=
  match event.process with
  | some process =>
      if process.arguments ≠ [] then
        let fingerprints := [EncodeFingerprintInEcho fingerprintCode,
                             AlertForwarder.EncodeFingerprintInCat fingerprintCode]
        fingerprints.any (fun fp => goContains process.arguments fp)
      else false
  | none => false

/-- The per-event tail of `processRecentAlerts`: each event is mapped to
an alert and the alert is emitted (marshalled and printed) unless
`IsFilteredEvent` holds for the active fingerprint code. -/
def processRecentAlerts (resolve : List Char → Except (List Char) (List Char))
    (fingerprintCode : Int) (events : List TetragonEvent) : List KoneyAlert :=
  (events.map (MapTetragonEvent resolve)).filter
    (fun alert => ¬ IsFilteredEvent alert fingerprintCode)

/-! ## Container-name matcher (`internal/controller/utils/matching.go`)

`MatchContainerName` dispatches on the pattern prefix: `regex:` compiles
the remainder with Go's `regexp` package, `glob:` uses `filepath.Match`,
anything else is literal equality.  The two library engines are embedded
below: `filepath.Match` in full (Unix semantics), and `regexp` as the
RE2 fragment the controller's selectors use (anchors, literals, `.`,
character classes, and the `*`/`+`/`?` quantifiers on single-character
items; other metacharacters are rejected by this embedded compiler). -/

mutual

/-- Validator for `filepath.Match` patterns.  Go (since 1.16) reports
`ErrBadPattern` exactly when the pattern is malformed, whatever the name:
a malformed character class (unterminated, empty, a range bound that is
missing or is `-` or `]`), or a trailing backslash.  The `fuel` argument
only drives the recursion; every call consumes at least one pattern
character per two fuel units, so any fuel above twice the pattern length
computes the full result (`globValid` below passes such a fuel). -/
def globValidF : Nat → List Char → Bool
  | 0, _ => false
  | _ + 1, [] => true
  | fuel + 1, '*' :: rest => globValidF fuel rest
  | fuel + 1, '\\' :: rest =>
      match rest with
      | [] => false
      | _ :: rest' => globValidF fuel rest'
  | fuel + 1, '[' :: '^' :: rest => globValidClass fuel rest 0
  | fuel + 1, '[' :: rest => globValidClass fuel rest 0
  | fuel + 1, _ :: rest => globValidF fuel rest

/-- Validates the inside of a character class, after `[` and an optional
`^`; `nrange` counts the ranges read so far (the class must contain at
least one).  A range bound may be backslash-escaped; a bound may not be
`-` or `]`, and Go additionally rejects a bound that ends the pattern. -/
def globValidClass : Nat → List Char → Nat → Bool
  | 0, _, _ => false
  | _ + 1, [], _ => false
  | fuel + 1, ']' :: rest, nrange => if nrange > 0 then globValidF fuel rest else false
  | _ + 1, '-' :: _, _ => false
  | fuel + 1, '\\' :: _ :: rest, nrange => globValidClassLo fuel rest nrange
  | _ + 1, '\\' :: [], _ => false
  | fuel + 1, _ :: rest, nrange => globValidClassLo fuel rest nrange

/-- After the low bound of a class range: either a `-` and a high bound
follow, or the next range begins. -/
def globValidClassLo : Nat → List Char → Nat → Bool
  | 0, _, _ => false
  | _ + 1, [], _ => false
  | fuel + 1, '-' :: rest2, nrange =>
      (match rest2 with
       | [] => false
       | '-' :: _ => false
       | ']' :: _ => false
       | '\\' :: _ :: rest3 =>
           if rest3.isEmpty then false else globValidClass fuel rest3 (nrange + 1)
       | '\\' :: [] => false
       | _ :: rest3 =>
           if rest3.isEmpty then false else globValidClass fuel rest3 (nrange + 1))
  | fuel + 1, rest, nrange => globValidClass fuel rest (nrange + 1)

end

/-- Pattern validity with sufficient fuel. -/
def globValid (pattern : List Char) : Bool :=
  globValidF (2 * pattern.length + 2) pattern

/-- Whether a character is in the range `lo ≤ c ≤ hi` (Go compares runes
numerically). -/
def charInRange (lo hi c : Char) : Bool := lo ≤ c && c ≤ hi

mutual

/-- The matching core of `filepath.Match` (Unix separator `/`), defined on
syntactically valid patterns; `*` matches any run of non-separator
characters, `?` one non-separator character, `\\c` and plain characters
match themselves, and `[...]`/`[^...]` match one character against a list
of ranges.  Every call consumes a pattern or a name character per two
fuel units, and the pattern is only ever rescanned from the current `*`,
so fuel `2 * (pattern + 2) * (name + 2)` (as passed by `globMatchCore`
below) computes the full result. -/
def globMatchCoreF : Nat → List Char → List Char → Bool
  | 0, _, _ => false
  | _ + 1, [], [] => true
  | _ + 1, [], _ :: _ => false
  | fuel + 1, '*' :: pr, s =>
      globMatchCoreF fuel pr s ||
        (match s with
         | [] => false
         | c :: cs => c ≠ '/' && globMatchCoreF fuel ('*' :: pr) cs)
  | fuel + 1, '?' :: pr, c :: cs => c ≠ '/' && globMatchCoreF fuel pr cs
  | _ + 1, '?' :: _, [] => false
  | fuel + 1, '\\' :: e :: pr, d :: cs => e = d && globMatchCoreF fuel pr cs
  | _ + 1, '\\' :: _ :: _, [] => false
  | _ + 1, '\\' :: [], _ => false
  | fuel + 1, '[' :: '^' :: rest, c :: cs => globMatchClass fuel rest c cs true false 0
  | fuel + 1, '[' :: rest, c :: cs => globMatchClass fuel rest c cs false false 0
  | _ + 1, '[' :: _, [] => false
  | fuel + 1, p :: pr, d :: cs => p = d && globMatchCoreF fuel pr cs
  | _ + 1, _ :: _, [] => false

/-- Matches the character `c` against the ranges of a class, then
continues matching the rest of the pattern against `cs`.  `acc` records
whether some range matched so far. -/
def globMatchClass : Nat → List Char → Char → List Char → Bool → Bool → Nat → Bool
  | 0, _, _, _, _, _, _ => false
  | _ + 1, [], _, _, _, _, _ => false
  | fuel + 1, ']' :: rest, _, cs, negated, acc, nrange =>
      if nrange > 0 then (acc ≠ negated) && globMatchCoreF fuel rest cs else false
  | _ + 1, '-' :: _, _, _, _, _, _ => false
  | fuel + 1, '\\' :: lo :: rest, c, cs, negated, acc, nrange =>
      globMatchClassLo fuel lo rest c cs negated acc nrange
  | _ + 1, '\\' :: [], _, _, _, _, _ => false
  | fuel + 1, lo :: rest, c, cs, negated, acc, nrange =>
      globMatchClassLo fuel lo rest c cs negated acc nrange

/-- After the low bound of a class range while matching: read an optional
high bound and fold the range check for `c` into the accumulator. -/
def globMatchClassLo : Nat → Char → List Char → Char → List Char → Bool → Bool → Nat → Bool
  | 0, _, _, _, _, _, _, _ => false
  | _ + 1, _, [], _, _, _, _, _ => false
  | fuel + 1, lo, '-' :: rest2, c, cs, negated, acc, nrange =>
      (match rest2 with
       | [] => false
       | '-' :: _ => false
       | ']' :: _ => false
       | '\\' :: hi :: rest3 =>
           if rest3.isEmpty then false
           else globMatchClass fuel rest3 c cs negated (acc || charInRange lo hi c) (nrange + 1)
       | '\\' :: [] => false
       | hi :: rest3 =>
           if rest3.isEmpty then false
           else globMatchClass fuel rest3 c cs negated (acc || charInRange lo hi c) (nrange + 1))
  | fuel + 1, lo, rest, c, cs, negated, acc, nrange =>
      globMatchClass fuel rest c cs negated (acc || charInRange lo lo c) (nrange + 1)

end

/-- The matching core with sufficient fuel. -/
def globMatchCore (pattern name : List Char) : Bool :=
  globMatchCoreF (2 * (pattern.length + 2) * (name.length + 2)) pattern name

/-- Model of Go `filepath.Match`: `none` models `ErrBadPattern` for a
malformed pattern, otherwise `some` of the match result. -/
def filepathMatch (pattern name : List Char) : Option Bool :=
  if globValid pattern then some (globMatchCore pattern name) else none

/-! ### The embedded `regexp` fragment

Go's `regexp.Compile`/`Regexp.Match` are embedded for the RE2 fragment
used by container selectors: optional `^`/`$` anchors, literal
characters, `.`, character classes `[...]`/`[^...]` with ranges, and the
`*`/`+`/`?` quantifiers applied to a single-character item.  Patterns
using other metacharacters are rejected by this embedded compiler;
matching is unanchored substring search unless anchors are present, as
in Go. -/

/-- One entry of a regex character class: a single character or an
inclusive range. -/
inductive ClsItem where
  | single (c : Char)
  | range (lo hi : Char)
deriving DecidableEq

/-- A single-character regex item: a literal, a character class, or `.`. -/
inductive RItem where
  | lit (c : Char)
  | cls (negated : Bool) (items : List ClsItem)
  | dot
deriving DecidableEq

/-- A regex atom: a single-character item with its quantifier. -/
inductive RAtom where
  | once (i : RItem)
  | star (i : RItem)
  | plus (i : RItem)
  | opt (i : RItem)
deriving DecidableEq

/-- A compiled regex of the embedded fragment. -/
structure Regex where
  anchorStart : Bool
  atoms : List RAtom
  anchorEnd : Bool
deriving DecidableEq

/-- Scans the inside of a character class up to the closing `]`; returns
the collected items and the rest of the pattern, or `none` for a
malformed class (unterminated, empty, reversed range, or one using a
metacharacter outside the fragment). -/
def reClassScan : List Char → List ClsItem → Option (List ClsItem × List Char)
  | [], _ => none
  | ']' :: rest, acc => if acc.isEmpty then none else some (acc.reverse, rest)
  | '\\' :: _, _ => none
  | c :: '-' :: ']' :: rest, acc => some ((ClsItem.single '-' :: ClsItem.single c :: acc).reverse, rest)
  | c :: '-' :: d :: rest, acc =>
      if d = '\\' then none
      else if c ≤ d then reClassScan rest (ClsItem.range c d :: acc)
      else none
  | c :: rest, acc => reClassScan rest (ClsItem.single c :: acc)

/-- Reads an optional quantifier character after an item and pairs the
item with it. -/
def reQuant (i : RItem) : List Char → RAtom × List Char
  | '*' :: rest => (RAtom.star i, rest)
  | '+' :: rest => (RAtom.plus i, rest)
  | '?' :: rest => (RAtom.opt i, rest)
  | rest => (RAtom.once i, rest)

/-- Parses the atom list of the fragment, after the optional leading `^`;
recognises a final `$`.  Metacharacters outside the fragment, a
quantifier with no preceding item, a `$` not at the end, and malformed
classes are compile errors (`none`), as they are errors or unsupported
constructs for this embedding of `regexp.Compile`.  Fuel above the
pattern length computes the full result. -/
def reParseAtoms : Nat → List Char → Option (List RAtom × Bool)
  | 0, _ => none
  | _ + 1, [] => some ([], false)
  | _ + 1, '$' :: [] => some ([], true)
  | _ + 1, '$' :: _ :: _ => none
  | _ + 1, '*' :: _ => none
  | _ + 1, '+' :: _ => none
  | _ + 1, '?' :: _ => none
  | _ + 1, '(' :: _ => none
  | _ + 1, ')' :: _ => none
  | _ + 1, '{' :: _ => none
  | _ + 1, '}' :: _ => none
  | _ + 1, '|' :: _ => none
  | _ + 1, '\\' :: _ => none
  | _ + 1, '^' :: _ => none
  | fuel + 1, '[' :: '^' :: rest =>
      (match reClassScan rest [] with
       | none => none
       | some (items, rest') =>
           let (atom, rest2) := reQuant (RItem.cls true items) rest'
           (reParseAtoms fuel rest2).map (fun (atoms, e) => (atom :: atoms, e)))
  | fuel + 1, '[' :: rest =>
      (match reClassScan rest [] with
       | none => none
       | some (items, rest') =>
           let (atom, rest2) := reQuant (RItem.cls false items) rest'
           (reParseAtoms fuel rest2).map (fun (atoms, e) => (atom :: atoms, e)))
  | fuel + 1, '.' :: rest =>
      let (atom, rest2) := reQuant RItem.dot rest
      (reParseAtoms fuel rest2).map (fun (atoms, e) => (atom :: atoms, e))
  | fuel + 1, c :: rest =>
      let (atom, rest2) := reQuant (RItem.lit c) rest
      (reParseAtoms fuel rest2).map (fun (atoms, e) => (atom :: atoms, e))

/-- Model of `regexp.Compile` on the fragment: strips a leading `^`,
parses the atoms, and records the anchors. -/
def regexpCompile (pattern : List Char) : Option Regex :=
  let (anchorStart, body) :=
    match pattern with
    | '^' :: rest => (true, rest)
    | rest => (false, rest)
  (reParseAtoms (body.length + 1) body).map
    (fun (atoms, anchorEnd) => ⟨anchorStart, atoms, anchorEnd⟩)

/-- Whether a single-character item matches a character. -/
def reItemMatch (i : RItem) (c : Char) : Bool :=
  match i with
  | .lit d => c = d
  | .dot => c ≠ '\n'
  | .cls negated items =>
      let inSet := items.any (fun it =>
        match it with
        | .single d => c = d
        | .range lo hi => charInRange lo hi c)
      if negated then !inSet else inSet

/-- Backtracking matcher for an atom list against a string, honouring the
end anchor.  Every call consumes an atom or a character per fuel unit and
a `+` only steps to the matching `*`, so fuel
`2 * (atoms + 2) * (string + 2)` (as passed by the wrappers below)
computes the full result. -/
def reMatchAtoms : Nat → List RAtom → Bool → List Char → Bool
  | 0, _, _, _ => false
  | _ + 1, [], anchorEnd, s => !anchorEnd || s.isEmpty
  | _ + 1, .once _ :: _, _, [] => false
  | fuel + 1, .once i :: rest, anchorEnd, c :: cs =>
      reItemMatch i c && reMatchAtoms fuel rest anchorEnd cs
  | fuel + 1, .opt i :: rest, anchorEnd, s =>
      reMatchAtoms fuel rest anchorEnd s ||
        (match s with
         | [] => false
         | c :: cs => reItemMatch i c && reMatchAtoms fuel rest anchorEnd cs)
  | fuel + 1, .star i :: rest, anchorEnd, s =>
      reMatchAtoms fuel rest anchorEnd s ||
        (match s with
         | [] => false
         | c :: cs => reItemMatch i c && reMatchAtoms fuel (.star i :: rest) anchorEnd cs)
  | _ + 1, .plus _ :: _, _, [] => false
  | fuel + 1, .plus i :: rest, anchorEnd, c :: cs =>
      reItemMatch i c && reMatchAtoms fuel (.star i :: rest) anchorEnd cs

/-- Unanchored search: tries to match at every start position. -/
def reSearch : Nat → List RAtom → Bool → List Char → Bool
  | 0, _, _, _ => false
  | fuel + 1, atoms, anchorEnd, s =>
      reMatchAtoms (2 * (atoms.length + 2) * (s.length + 2)) atoms anchorEnd s ||
        (match s with
         | [] => false
         | _ :: cs => reSearch fuel atoms anchorEnd cs)

/-- Model of Go `Regexp.Match`: anchored at the start when the pattern
began with `^`, otherwise a substring search. -/
def regexpMatch (re : Regex) (s : List Char) : Bool :=
  if re.anchorStart then
    reMatchAtoms (2 * (re.atoms.length + 2) * (s.length + 2)) re.atoms re.anchorEnd s
  else
    reSearch (s.length + 1) re.atoms re.anchorEnd s

/-- Function `MatchContainerName` from `internal/controller/utils/matching.go`:
empty pattern matches everything; a `regex:` prefix compiles and runs the
remainder as a regex; a `glob:` prefix runs `filepath.Match`; any other
pattern is compared literally.  The Go `(bool, error)` return is the pair
of the result and an optional error message. -/
def MatchContainerName (pattern containerName : List Char) :
    Bool × Option (List Char) :=
  if pattern = [] then (true, none)
  else if goHasPrefix pattern (str "regex:") then
    match regexpCompile (goTrimPrefix pattern (str "regex:")) with
    | none => (false, some (str "error compiling regex"))
    | some re => (regexpMatch re containerName, none)
  else if goHasPrefix pattern (str "glob:") then
    match filepathMatch (goTrimPrefix pattern (str "glob:")) containerName with
    | none => (false, some (str "error compiling glob expression"))
    | some result => (result, none)
  else (decide (pattern = containerName), none)

/-! ## Traps and tracing-policy names (`filesystoken` package)

The `v1alpha1` trap types and `utils.Hash` are not among the sources at
hand; they are modelled from the spec's data model (§3) and hashing
contract (§4.2).  `json.Marshal` of these structs is modelled by a
canonical textual encoding: struct fields in declaration order, map
entries sorted (Go's `json.Marshal` sorts map keys), so the encoding is
deterministic under reordering of `matchLabels`. -/

/-- Modelled from the spec: one `matchExpressions` entry of a label
selector. -/
structure LabelSelectorRequirement where
  key : List Char
  operator : List Char
  values : List (List Char)
deriving DecidableEq

/-- Modelled from the spec: a label selector with `matchLabels` (a map,
modelled as an association list) and `matchExpressions`. -/
structure LabelSelector where
  matchLabels : List (List Char × List Char)
  matchExpressions : List LabelSelectorRequirement
deriving DecidableEq

/-- Modelled from the spec: one resource filter of a trap's `match.any`
list. -/
structure ResourceFilter where
  namespaces : List (List Char)
  selector : LabelSelector
  containerSelector : List Char
deriving DecidableEq

/-- Modelled from the spec: the `match` field of a trap, a disjunction of
resource filters. -/
structure MatchResources where
  any : List ResourceFilter
deriving DecidableEq

/-- Modelled from the spec: the `filesystemHoneytoken` variant payload of
a trap. -/
structure FilesystemHoneytoken where
  filePath : List Char
  fileContent : List Char
  readOnly : Bool
deriving DecidableEq

/-- Modelled from the spec: the decoy-deployment choice of a trap. -/
structure DecoyDeployment where
  strategy : List Char
deriving DecidableEq

/-- The captor-deployment choice of a trap
(`api/v1alpha1/dp_captor_types.go`). -/
structure CaptorDeployment where
  strategy : List Char
deriving DecidableEq

/-- Modelled from the spec: a trap of a deception policy (only the
implemented `filesystemHoneytoken` variant is populated). -/
structure Trap where
  filesystemHoneytoken : FilesystemHoneytoken
  matchResources : MatchResources
  decoyDeployment : DecoyDeployment
  captorDeployment : CaptorDeployment
deriving DecidableEq

/-- A JSON string literal (the strings at hand need no escaping). -/
def jsonStr (s : List Char) : List Char := '"' :: (s ++ ['"'])

/-- Comma-joined list of pre-rendered JSON values in brackets. -/
def jsonArr (elems : List (List Char)) : List Char :=
  '[' :: ((elems.intersperse (str ",")).flatten ++ [']'])

/-- A JSON object from pre-rendered key/value fields, in the given
order. -/
def jsonObj (fields : List (List Char × List Char)) : List Char :=
  '{' :: (((fields.map (fun f => jsonStr f.1 ++ (':' :: f.2))).intersperse
            (str ",")).flatten ++ ['}'])

/-- Canonical encoding of a label map: entries rendered and then sorted,
modelling `json.Marshal`'s sorted map keys; deterministic under entry
reordering. -/
def marshalLabelMap (labels : List (List Char × List Char)) : List Char :=
  '{' :: (((List.insertionSort (fun a b : List Char => a ≤ b)
              (labels.map (fun kv => jsonStr kv.1 ++ (':' :: jsonStr kv.2)))).intersperse
            (str ",")).flatten ++ ['}'])

/-- JSON encoding of a boolean. -/
def marshalBool (b : Bool) : List Char :=
  if b then str "true" else str "false"

/-- Canonical encoding of one `matchExpressions` entry. -/
def marshalRequirement (r : LabelSelectorRequirement) : List Char :=
  jsonObj [(str "key", jsonStr r.key),
           (str "operator", jsonStr r.operator),
           (str "values", jsonArr (r.values.map jsonStr))]

/-- Canonical encoding of a label selector. -/
def marshalSelector (s : LabelSelector) : List Char :=
  jsonObj [(str "matchLabels", marshalLabelMap s.matchLabels),
           (str "matchExpressions", jsonArr (s.matchExpressions.map marshalRequirement))]

/-- Canonical encoding of one resource filter. -/
def marshalResourceFilter (f : ResourceFilter) : List Char :=
  jsonObj [(str "namespaces", jsonArr (f.namespaces.map jsonStr)),
           (str "selector", marshalSelector f.selector),
           (str "containerSelector", jsonStr f.containerSelector)]

/-- Canonical encoding of a whole trap, the `trapJSON` hashed by the name
generator. -/
def marshalTrap (t : Trap) : List Char :=
  jsonObj [(str "filesystemHoneytoken",
             jsonObj [(str "filePath", jsonStr t.filesystemHoneytoken.filePath),
                      (str "fileContent", jsonStr t.filesystemHoneytoken.fileContent),
                      (str "readOnly", marshalBool t.filesystemHoneytoken.readOnly)]),
           (str "match", jsonObj [(str "any",
             jsonArr (t.matchResources.any.map marshalResourceFilter))]),
           (str "decoyDeployment", jsonObj [(str "strategy", jsonStr t.decoyDeployment.strategy)]),
           (str "captorDeployment", jsonObj [(str "strategy", jsonStr t.captorDeployment.strategy)])]

/-- Modelled from the spec: `utils.Hash` (not among the sources), the
stable collision-resistant content hash behind derived-resource names
(§4.2, ≥ 64 bits of effective width), here a 64-bit FNV-1a digest
rendered in hex.  The claims use only that it is a deterministic function
of the canonical encoding. -/
def Hash (s : List Char) : List Char :=
  let fnv := s.foldl
    (fun h c => ((h ^^^ c.toNat) * 1099511628211) % (2 ^ 64))
    14695981039346656037
  Nat.toDigits 16 fnv

/-- Function `GenerateTetragonTracingPolicyName` generates the name of a Tetragon
tracing policy from the full JSON encoding of the trap. -/
def GenerateTetragonTracingPolicyName (trap : Trap) : List Char :=
  str "koney-tracing-policy-" ++ Hash (marshalTrap trap)

/-- Function `GenerateKiveTracingPolicyName` blanks the decoy strategy, the file
content and the read-only flag before delegating, so that
monitoring-irrelevant fields do not alter the name. -/
def GenerateKiveTracingPolicyName (trap : Trap) : List Char :=
  GenerateTetragonTracingPolicyName
    { trap with
        decoyDeployment := { strategy := [] }
        filesystemHoneytoken :=
          { trap.filesystemHoneytoken with fileContent := [], readOnly := false } }

/-! ## Tetragon tracing-policy generation (`generateTetragonTracingPolicy`) -/

/-- Modelled from the spec: `matching.ContainerSelectorSelectsAll` (not
among the sources); the empty string and the literal `*` are the
match-all sentinel for container selectors (§3). -/
def ContainerSelectorSelectsAll (selector : List Char) : Bool :=
  selector = [] || selector = ['*']

/-- Modelled from the spec: `utils.GetKoneyNamespace` (not among the
sources), the operator namespace with the well-known fallback. -/
def GetKoneyNamespace : List Char := str "koney-system"

/-- Function `buildTetragonWebhookUrl` builds the ingestion webhook the probes post
to. -/
def buildTetragonWebhookUrl : List Char :=
  str "http://koney-alert-forwarder-webhook." ++ GetKoneyNamespace ++
    str ".svc:8000/handlers/tetragon"

/-- One `matchExpressions` entry of the tracing policy's container
selector (`slimv1.LabelSelectorRequirement`). -/
structure TPRequirement where
  key : List Char
  operator : List Char
  values : List (List Char)
deriving DecidableEq

/-- One kprobe of the generated tracing policy, restricted to the fields
the generator sets. -/
structure TPKProbe where
  call : List Char
  syscall : Bool
  ret : Bool
  matchPath : List Char
  argUrl : List Char
deriving DecidableEq

/-- The generated Tetragon tracing policy, restricted to the fields the
generator sets: name, the deception-policy label, the pod selector's
matchLabels, the container selector's matchExpressions, and the two
kprobes. -/
structure TracingPolicy where
  name : List Char
  labelDeceptionPolicyRef : List Char
  podSelectorMatchLabels : List (List Char × List Char)
  containerSelectorMatchExpressions : List TPRequirement
  kprobes : List TPKProbe
deriving DecidableEq

/-- Go map assignment `m[key] = value` on the association-list model:
replaces the binding when the key is present, otherwise appends it. -/
def mapAssign (m : List (List Char × List Char)) (key value : List Char) :
    List (List Char × List Char) :=
  if m.any (fun kv => kv.1 = key) then
    m.map (fun kv => if kv.1 = key then (key, value) else kv)
  else m ++ [(key, value)]

/-- The first loop of `generateTetragonTracingPolicy`: assigns every
`matchLabels` entry of every resource filter into the pod selector's
matchLabels map. -/
def collectPodSelectorLabels (filters : List ResourceFilter) :
    List (List Char × List Char) :=
  filters.foldl
    (fun m f => f.selector.matchLabels.foldl (fun m' kv => mapAssign m' kv.1 kv.2) m)
    []

/-- The second loop of `generateTetragonTracingPolicy`: walks the
resource filters; a match-all container selector empties the container
selector and breaks; otherwise the selector is appended (once) to the
values of the single `In` expression on the container-name key. -/
def collectContainerSelectors (exprs : List TPRequirement) :
    List ResourceFilter → List TPRequirement
  | [] => exprs
  | f :: rest =>
      if ContainerSelectorSelectsAll f.containerSelector then []
      else
        let exprs1 :=
          if exprs.isEmpty then
            [⟨str "name", str "In", [f.containerSelector]⟩]
          else exprs
        let exprs2 :=
          match exprs1 with
          | [] => []
          | e :: es =>
              if f.containerSelector ∈ e.values then e :: es
              else ⟨e.key, e.operator, e.values ++ [f.containerSelector]⟩ :: es
        collectContainerSelectors exprs2 rest

/-- Function `generateTetragonTracingPolicy` for a filesystem-honeytoken trap:
the fixed pair of kprobes on `security_file_permission` and
`security_mmap_file` matching the decoy file path, the deception-policy
label, and the selectors composed from the trap's resource filters. -/
def generateTetragonTracingPolicy (deceptionPolicyName : List Char)
    (trap : Trap) (tracingPolicyName : List Char) : TracingPolicy :=
  { name := tracingPolicyName
    labelDeceptionPolicyRef := deceptionPolicyName
    podSelectorMatchLabels := collectPodSelectorLabels trap.matchResources.any
    containerSelectorMatchExpressions :=
      collectContainerSelectors [] trap.matchResources.any
    kprobes :=
      [⟨str "security_file_permission", false, true,
        trap.filesystemHoneytoken.filePath, buildTetragonWebhookUrl⟩,
       ⟨str "security_mmap_file", false, true,
        trap.filesystemHoneytoken.filePath, buildTetragonWebhookUrl⟩] }

/-! ## Timestamp normalization and deduplication (`ReadTetragonEvents`)

`timePattern` is the regex
`("time":"\d{4}-\d{2}-\d{2}T\d{2}:\d{2}:\d{2})\.\d{9}(Z")`; the scraping
loop rewrites every occurrence to `$1$2`, dropping the nine-digit
sub-second fraction.  The fixed regex is embedded as its literal
character-class sequence and `ReplaceAllString` as a leftmost scan. -/

/-- One position of the fixed time pattern: a literal character or a
`\d` digit class. -/
inductive CClass where
  | lit (c : Char)
  | digit
deriving DecidableEq

/-- Whether a character matches a pattern position. -/
def cclassMatch : CClass → Char → Bool
  | .lit d, c => c = d
  | .digit, c => c.isDigit

/-- Literal pattern positions for a string. -/
def lits (s : List Char) : List CClass := s.map .lit

/-- The `\d{4}-\d{2}-\d{2}T\d{2}:\d{2}:\d{2}` part of the first capture
group. -/
def timeStampClasses : List CClass :=
  List.replicate 4 .digit ++ [.lit '-'] ++ List.replicate 2 .digit ++
    [.lit '-'] ++ List.replicate 2 .digit ++ [.lit 'T'] ++
    List.replicate 2 .digit ++ [.lit ':'] ++ List.replicate 2 .digit ++
    [.lit ':'] ++ List.replicate 2 .digit

/-- The first capture group of `timePattern`:
`"time":"\d{4}-\d{2}-\d{2}T\d{2}:\d{2}:\d{2}`. -/
def timeGroup1 : List CClass := lits (str "\"time\":\"") ++ timeStampClasses

/-- The dropped middle of `timePattern`: `\.\d{9}`. -/
def timeFraction : List CClass := .lit '.' :: List.replicate 9 .digit

/-- The second capture group of `timePattern`: `Z"`. -/
def timeGroup2 : List CClass := lits (str "Z\"")

/-- Matches a class sequence against the front of a string, returning the
matched characters and the rest. -/
def matchClasses : List CClass → List Char → Option (List Char × List Char)
  | [], s => some ([], s)
  | _ :: _, [] => none
  | cl :: cls, a :: s =>
      if cclassMatch cl a then
        (matchClasses cls s).map (fun p => (a :: p.1, p.2))
      else none

/-- Tries `timePattern` at the current position; on success returns the
replacement `$1$2` (the fraction dropped) and the rest of the string. -/
def timePatternMatchAt (s : List Char) : Option (List Char × List Char) :=
  (matchClasses timeGroup1 s).bind (fun g1 =>
    (matchClasses timeFraction g1.2).bind (fun fr =>
      (matchClasses timeGroup2 fr.2).map (fun g2 => (g1.1 ++ g2.1, g2.2))))

/-- The leftmost, non-overlapping scan of `ReplaceAllString`, fueled; a
match consumes 39 characters and a mismatch one, so any fuel above the
string length computes the full result. -/
def replaceAllTimePatternF : Nat → List Char → List Char
  | 0, s => s
  | _ + 1, [] => []
  | fuel + 1, c :: cs =>
      match timePatternMatchAt (c :: cs) with
      | some (kept, rest) => kept ++ replaceAllTimePatternF fuel rest
      | none => c :: replaceAllTimePatternF fuel cs

/-- Model of `timePattern.ReplaceAllString(line, "$1$2")`: every occurrence of the
time pattern loses its sub-second fraction. -/
def replaceAllTimePattern (s : List Char) : List Char :=
  replaceAllTimePatternF (s.length + 1) s

/-- Constant `TetragonPolicyPrefix`, the prefix of all tracing policies created by
Koney. -/
def TetragonPolicyPrefix : List Char := str "koney-tracing-policy-"

/-- Modelled from the spec: the content hash of the deduplication stage
(`md5.Sum` of the normalized line rendered in hex); the claims use only
that it is a deterministic function of the normalized line, so it shares
the digest model of `Hash`. -/
def md5Hex (s : List Char) : List Char := Hash s

/-- The per-line loop of `ReadTetragonEvents` over one log stream:
lines without the tracing-policy prefix are skipped; the line is
normalized; JSON parsing and policy-name extraction are abstracted as
`parsePolicy` (returning the `policy_name` of the parsed event, or `none`
for malformed lines); events whose policy name lacks the prefix are
skipped; the hash of the normalized line is looked up in the cache and
stored, skipping duplicates.  Returns the final cache and the normalized
lines that produced events. -/
def readTetragonLoop (parsePolicy : List Char → Option (List Char)) :
    List (List Char) → List (List Char) → List (List Char) →
    List (List Char) × List (List Char)
  | [], cache, emitted => (cache, emitted)
  | line :: rest, cache, emitted =>
      if ¬ goContains line TetragonPolicyPrefix then
        readTetragonLoop parsePolicy rest cache emitted
      else
        let normalized := replaceAllTimePattern line
        match parsePolicy normalized with
        | none => readTetragonLoop parsePolicy rest cache emitted
        | some policyName =>
            if ¬ goHasPrefix policyName TetragonPolicyPrefix then
              readTetragonLoop parsePolicy rest cache emitted
            else
              let eventHash := md5Hex normalized
              if eventHash ∈ cache then
                readTetragonLoop parsePolicy rest cache emitted
              else
                readTetragonLoop parsePolicy rest (cache ++ [eventHash])
                  (emitted ++ [normalized])

/-! ## The trigger endpoint and the debouncer (`main.go` of the alert
forwarder)

The HTTP handler and the debouncer goroutine are modelled as a
discrete-time state machine: the trigger channel of capacity one is a
`Bool`, the running `time.AfterFunc` timer is its optional expiry time,
and the executor below processes a time-ordered trigger sequence under
the scheduling in which the debouncer consumes each pending signal before
the next trigger or expiry (signals are consumed in microseconds while
the debounce window is five seconds). -/

/-- Constant `DEBOUNCE_SECONDS`, the delay after a trigger until the scan runs. -/
def DEBOUNCE_SECONDS : Nat := 5

/-- Constant recording that `processRecentAlerts` reads the events of the last 60 seconds
(`ReadTetragonEvents(h.kubeClient, 60)`). -/
def scanSinceSeconds : Nat := 60

/-- The capacity-one trigger channel: `pending` is whether a signal is
buffered. -/
structure TriggerChannel where
  pending : Bool
deriving DecidableEq

/-- Handler `handleTetragon`: an unauthenticated request is answered 401; an
authenticated one is answered 202 after a non-blocking send on the
channel (a no-op when a signal is already pending). -/
def handleTetragon (authOk : Bool) (chan : TriggerChannel) :
    Nat × TriggerChannel :=
  if ¬ authOk then (401, chan)
  else (202, ⟨true⟩)

/-- One receive of the debouncer loop at time `now`: the running timer
(if any) is stopped and a fresh debounce timer is started. -/
def debouncerReceive (now : Nat) (_timer : Option Nat) : Option Nat :=
  some (now + DEBOUNCE_SECONDS)

/-- The debouncer run over a time-ordered trigger sequence: each trigger
resets the timer; a timer that expires before the next trigger fires one
scan at its expiry time.  Returns the scan times. -/
def debounceRun : List Nat → Option Nat → List Nat
  | [], none => []
  | [], some d => [d]
  | t :: ts, none => debounceRun ts (debouncerReceive t none)
  | t :: ts, some d =>
      if d ≤ t then d :: debounceRun ts (debouncerReceive t (some d))
      else debounceRun ts (debouncerReceive t (some d))

/-- The scan times produced by a trigger sequence from the idle state. -/
def debounceScans (triggers : List Nat) : List Nat :=
  debounceRun triggers none

/-! ## Specification-side definitions used to state the claims -/

/-- The process arguments an alert carries (empty when it has no process
metadata). -/
def alertArguments (alert : KoneyAlert) : List Char :=
  match alert.process with
  | some process => process.arguments
  | none => []

/-- The cat-form encoding as the spec words it: the space-separated
sequence that maps each binary digit of the code to `-u` for `0` and
`-uu` for `1`. -/
def specCatEncoding (n : Nat) : List Char :=
  (((Nat.toDigits 2 n).map
      (fun bit => if bit = '0' then str "-u" else str "-uu")).intersperse
    (str " ")).flatten

/-- Association-list lookup (first binding wins), the reading of a
Go map modelled as a list of entries. -/
def assocLookup (m : List (List Char × List Char)) (key : List Char) :
    Option (List Char) :=
  match m with
  | [] => none
  | kv :: rest => if kv.1 = key then some kv.2 else assocLookup rest key

/-- All label pairs of a trap's resource filters, in filter order. -/
def allLabelPairs (trap : Trap) : List (List Char × List Char) :=
  (trap.matchResources.any.map (fun f => f.selector.matchLabels)).flatten

/-- The union of the filters' label maps as the spec words it: a key maps
to the value of its last binding (later filters override earlier ones,
as Go map assignment does). -/
def unionLabelValue (trap : Trap) (key : List Char) : Option (List Char) :=
  assocLookup (allLabelPairs trap).reverse key

/-- The distinct elements of a list, first occurrences first — the order
in which the generator accumulates container-selector values. -/
def firstOccDedup (xs : List (List Char)) : List (List Char) :=
  xs.foldl (fun acc x => if x ∈ acc then acc else acc ++ [x]) []

/-- A raw log line carrying one `timePattern` occurrence with timestamp
core `ts` and nine-digit fraction `f`: the shape of the lines the
normalization claim quantifies over. -/
def mkLine (p ts f s : List Char) : List Char :=
  p ++ (str "\"time\":\"" ++ ts ++ ('.' :: f) ++ (str "Z\"" ++ s))

/-- Two resource filters that differ only in the order of their
`matchLabels` entries. -/
def SameUpToLabelOrder (f1 f2 : ResourceFilter) : Prop :=
  f1.namespaces = f2.namespaces ∧
  f1.containerSelector = f2.containerSelector ∧
  f1.selector.matchExpressions = f2.selector.matchExpressions ∧
  f1.selector.matchLabels.Perm f2.selector.matchLabels

/-! # Theorems -/

/-! ## The two cat-form encoders (C10) -/

theorem foldl_space_append (bits : List Char) (init : List Char) :
    bits.foldl (fun acc bit => acc ++ (' ' :: catToken bit)) init
      = init ++ (bits.map (fun bit => ' ' :: catToken bit)).flatten := by
  induction bits generalizing init with
  | nil => simp
  | cons b bs ih => simp [List.foldl_cons, ih]

theorem intersperse_space_flatten (x : List Char) (xs : List (List Char)) :
    ((x :: xs).intersperse (str " ")).flatten
      = x ++ (xs.map (fun t => ' ' :: t)).flatten := by
  induction xs generalizing x with
  | nil => simp [List.intersperse]
  | cons y ys ih =>
      have hstep : (x :: y :: ys).intersperse (str " ")
          = x :: str " " :: (y :: ys).intersperse (str " ") := rfl
      rw [hstep]
      simp only [List.flatten_cons, ih y]
      simp [str]

theorem encodeCat_flatten (code : Int) :
    AlertForwarder.EncodeFingerprintInCat code
      = (((formatInt2 code).map catToken).intersperse (str " ")).flatten := by
  cases h : formatInt2 code with
  | nil => simp [AlertForwarder.EncodeFingerprintInCat, h]
  | cons b rest =>
      simp only [AlertForwarder.EncodeFingerprintInCat, h]
      rw [foldl_space_append, List.map_cons, intersperse_space_flatten]
      simp [List.map_map, Function.comp_def]

/-- C10: the `strings.Builder` encoder of the alert forwarder and the
slice-append/`strings.Join` encoder of the second copy of
`fingerprint.go` agree on every integer code, and on natural codes both
produce the space-separated `-u`/`-uu` image of the binary digits. -/
theorem encodeFingerprintInCat_equiv :
    (∀ code : Int, AlertForwarder.EncodeFingerprintInCat code
        = ControllerCopy.EncodeFingerprintInCat code)
    ∧ (∀ n : Nat,
        AlertForwarder.EncodeFingerprintInCat (n : Int) = specCatEncoding n) := by
  constructor
  · intro code
    rw [encodeCat_flatten]
    rfl
  · intro n
    rw [encodeCat_flatten]
    unfold specCatEncoding
    have hfmt : formatInt2 (n : Int) = Nat.toDigits 2 n := by
      unfold formatInt2
      simp
    rw [hfmt]
    rfl

/-! ## Self-access filtering (C1) -/

/-- C1 counterexample: the spec's E5 line, whose `process.arguments` are
`-u -uu -u -u -u -u -u -u -uu -u -uu`, is not dropped: that string is not
the cat-form encoding of 1337 (which is
`-uu -u -uu -u -u -uu -uu -uu -u -u -uu`) and contains neither
fingerprint. -/
theorem isFilteredEvent_spec_example_not_dropped :
    IsFilteredEvent
      { timestamp := str "2025-01-02T03:04:05Z"
        deceptionPolicyName := none
        trapType := TrapTypeFilesystemHoneytoken
        metadata := some (some (str "/tmp/auth_token.json"))
        pod := none
        process := some
          { pid := 148373, cwd := str "/", binary := str "/usr/bin/cat"
            arguments := str "-u -uu -u -u -u -u -u -u -uu -u -uu" } }
      KoneyFingerprint = false := by decide

/-- C1 (amended): for the active code 1337, an event is dropped iff its
process arguments contain the echo-form or the cat-form encoding; the
cat-form encoding of 1337 is `-uu -u -uu -u -u -uu -uu -uu -u -u -uu`
(not the string the spec's E5 gives), and an event carrying it is
dropped. -/
theorem isFilteredEvent_iff_fingerprint :
    (∀ alert : KoneyAlert,
      IsFilteredEvent alert KoneyFingerprint = true ↔
        (goContains (alertArguments alert)
            (EncodeFingerprintInEcho KoneyFingerprint) = true ∨
         goContains (alertArguments alert)
            (AlertForwarder.EncodeFingerprintInCat KoneyFingerprint) = true))
    ∧ AlertForwarder.EncodeFingerprintInCat KoneyFingerprint
        = str "-uu -u -uu -u -u -uu -uu -uu -u -u -uu"
    ∧ IsFilteredEvent
        { timestamp := str "2025-01-02T03:04:05Z"
          deceptionPolicyName := none
          trapType := TrapTypeFilesystemHoneytoken
          metadata := some (some (str "/tmp/auth_token.json"))
          pod := none
          process := some
            { pid := 148373, cwd := str "/", binary := str "/usr/bin/cat"
              arguments := str "-uu -u -uu -u -u -uu -uu -uu -u -u -uu" } }
        KoneyFingerprint = true := by
  refine ⟨?_, by decide, by decide⟩
  intro alert
  cases halert : alert.process with
  | none =>
      simp [IsFilteredEvent, alertArguments, halert] <;> decide
  | some pr =>
      by_cases h : pr.arguments = []
      · simp [IsFilteredEvent, alertArguments, halert, h] <;> decide
      · simp [IsFilteredEvent, alertArguments, halert, h]

/-! ## Container-selector semantics (C3) -/

/-- C3 counterexample: `MatchContainerName` treats the bare pattern `*`
as a literal, so it does not match the container name `nginx` (the
match-all reading of `*` lives at the policy layer, not here). -/
theorem matchContainerName_star_is_literal :
    MatchContainerName (str "*") (str "nginx") = (false, none) := by decide

/-- C3 (amended): the empty pattern matches every name; a pattern with
no `regex:`/`glob:` prefix — the bare `*` included — matches exactly by
literal equality; `glob:ng*` matches `nginx` but not `redis`; and
`regex:^db[0-9]+$` matches `db12` but not `db`. -/
theorem matchContainerName_semantics :
    (∀ name, MatchContainerName [] name = (true, none))
    ∧ (∀ pattern name, pattern ≠ [] →
        goHasPrefix pattern (str "regex:") = false →
        goHasPrefix pattern (str "glob:") = false →
        MatchContainerName pattern name = (decide (pattern = name), none))
    ∧ (∀ name, MatchContainerName (str "*") name
        = (decide (str "*" = name), none))
    ∧ (MatchContainerName (str "glob:ng*") (str "nginx")).1 = true
    ∧ (MatchContainerName (str "glob:ng*") (str "redis")).1 = false
    ∧ (MatchContainerName (str "regex:^db[0-9]+$") (str "db12")).1 = true
    ∧ (MatchContainerName (str "regex:^db[0-9]+$") (str "db")).1 = false := by
  have hlit : ∀ pattern name, pattern ≠ [] →
      goHasPrefix pattern (str "regex:") = false →
      goHasPrefix pattern (str "glob:") = false →
      MatchContainerName pattern name = (decide (pattern = name), none) := by
    intro pattern name h1 h2 h3
    simp [MatchContainerName, h1, h2, h3]
  refine ⟨?_, hlit, ?_, by decide, by decide, by decide, by decide⟩
  · intro name; simp [MatchContainerName]
  · intro name
    exact hlit (str "*") name (by decide) (by decide) (by decide)

/-- C3 (amended) witness: the literal branch at a concrete pattern. -/
theorem matchContainerName_semantics_witness :
    MatchContainerName (str "db3") (str "db3") = (true, none) ∧
    MatchContainerName (str "db3") (str "db4") = (false, none) :=
  ⟨(matchContainerName_semantics.2.1 (str "db3") (str "db3")
      (by decide) (by decide) (by decide)).trans (by decide),
   (matchContainerName_semantics.2.1 (str "db3") (str "db4")
      (by decide) (by decide) (by decide)).trans (by decide)⟩

/-! ## Invalid patterns (C9) -/

theorem goHasPrefix_ne_nil {s pre : List Char} (h : goHasPrefix s pre = true)
    (hpre : pre ≠ []) : s ≠ [] := by
  cases pre with
  | nil => exact absurd rfl hpre
  | cons c cs =>
      cases s with
      | nil => simp [goHasPrefix] at h
      | cons d ds => simp

theorem goHasPrefix_head {s : List Char} {c : Char} {cs : List Char}
    (h : goHasPrefix s (c :: cs) = true) : ∃ ds, s = c :: ds := by
  cases s with
  | nil => simp [goHasPrefix] at h
  | cons d ds =>
      simp [goHasPrefix] at h
      exact ⟨ds, by rw [h.1]⟩

/-- C9: a `regex:` pattern whose remainder does not compile, and a
`glob:` pattern whose remainder is malformed, make `MatchContainerName`
return `false` together with a compile error; in particular
`regex:[unterminated` (an unterminated character class) and `glob:[`
fail so, and no match result is produced for them. -/
theorem matchContainerName_pattern_compile_error :
    (∀ pattern name, goHasPrefix pattern (str "regex:") = true →
        regexpCompile (goTrimPrefix pattern (str "regex:")) = none →
        MatchContainerName pattern name
          = (false, some (str "error compiling regex")))
    ∧ (∀ pattern name, goHasPrefix pattern (str "glob:") = true →
        globValid (goTrimPrefix pattern (str "glob:")) = false →
        MatchContainerName pattern name
          = (false, some (str "error compiling glob expression")))
    ∧ MatchContainerName (str "regex:[unterminated") (str "x")
        = (false, some (str "error compiling regex"))
    ∧ MatchContainerName (str "glob:[") (str "x")
        = (false, some (str "error compiling glob expression")) := by
  refine ⟨?_, ?_, by decide, by decide⟩
  · intro pattern name hpre hcompile
    have hne : pattern ≠ [] := goHasPrefix_ne_nil hpre (by decide)
    simp [MatchContainerName, hne, hpre, hcompile]
  · intro pattern name hpre hinvalid
    have hne : pattern ≠ [] := goHasPrefix_ne_nil hpre (by decide)
    have hnr : goHasPrefix pattern (str "regex:") = false := by
      obtain ⟨ds, rfl⟩ := goHasPrefix_head hpre
      simp [str, goHasPrefix]
    simp [MatchContainerName, hne, hnr, hpre, filepathMatch, hinvalid]

/-- C9 witness: the universal error cases applied at concrete invalid
patterns. -/
theorem matchContainerName_pattern_compile_error_witness :
    MatchContainerName (str "regex:[unterminated") (str "nginx")
        = (false, some (str "error compiling regex")) ∧
    MatchContainerName (str "glob:[oops") (str "nginx")
        = (false, some (str "error compiling glob expression")) :=
  ⟨matchContainerName_pattern_compile_error.1 (str "regex:[unterminated")
      (str "nginx") (by decide) (by decide),
   matchContainerName_pattern_compile_error.2.1 (str "glob:[oops")
      (str "nginx") (by decide) (by decide)⟩

/-! ## Tracing-policy names (C2, C7) -/

set_option maxRecDepth 40000 in
/-- C2 counterexample: two traps that differ only in `fileContent` get
different Tetragon tracing-policy names — `GenerateTetragonTracingPolicyName`
hashes the full trap and does not strip the monitoring-irrelevant
fields. -/
theorem tetragonName_depends_on_fileContent :
    GenerateTetragonTracingPolicyName
        { filesystemHoneytoken :=
            { filePath := str "/tmp/auth_token.json"
              fileContent := str "secret-one", readOnly := false }
          matchResources :=
            { any := [{ namespaces := []
                        selector := { matchLabels :=
                          [(str "app", str "nginx")], matchExpressions := [] }
                        containerSelector := str "nginx" }] }
          decoyDeployment := { strategy := str "volumeMount" }
          captorDeployment := { strategy := str "tetragon" } }
      ≠ GenerateTetragonTracingPolicyName
        { filesystemHoneytoken :=
            { filePath := str "/tmp/auth_token.json"
              fileContent := str "secret-two", readOnly := false }
          matchResources :=
            { any := [{ namespaces := []
                        selector := { matchLabels :=
                          [(str "app", str "nginx")], matchExpressions := [] }
                        containerSelector := str "nginx" }] }
          decoyDeployment := { strategy := str "volumeMount" }
          captorDeployment := { strategy := str "tetragon" } } := by decide

/-- C2 (amended): stripping of the monitoring-irrelevant fields (decoy
strategy, fileContent, readOnly) holds for the Kive name generator: two
traps that agree on every other field get the same Kive tracing-policy
name.  The Tetragon name generator hashes the full trap instead. -/
theorem kiveName_ignores_monitoring_irrelevant_fields :
    ∀ t1 t2 : Trap,
      t1.filesystemHoneytoken.filePath = t2.filesystemHoneytoken.filePath →
      t1.matchResources = t2.matchResources →
      t1.captorDeployment = t2.captorDeployment →
      GenerateKiveTracingPolicyName t1 = GenerateKiveTracingPolicyName t2 := by
  rintro ⟨⟨fp1, fc1, ro1⟩, mr1, dd1, cd1⟩ ⟨⟨fp2, fc2, ro2⟩, mr2, dd2, cd2⟩ hfp hmr hcd
  simp only at hfp hmr hcd
  subst hfp; subst hmr; subst hcd
  rfl

/-- C2 (amended) witness. -/
theorem kiveName_ignores_monitoring_irrelevant_fields_witness :
    GenerateKiveTracingPolicyName
        { filesystemHoneytoken :=
            { filePath := str "/tmp/a", fileContent := str "x", readOnly := true }
          matchResources := { any := [] }
          decoyDeployment := { strategy := str "containerExec" }
          captorDeployment := { strategy := str "kive" } }
      = GenerateKiveTracingPolicyName
        { filesystemHoneytoken :=
            { filePath := str "/tmp/a", fileContent := str "y", readOnly := false }
          matchResources := { any := [] }
          decoyDeployment := { strategy := str "volumeMount" }
          captorDeployment := { strategy := str "kive" } } :=
  kiveName_ignores_monitoring_irrelevant_fields _ _ rfl rfl rfl

theorem insertionSort_eq_of_perm {l1 l2 : List (List Char)} (h : l1.Perm l2) :
    List.insertionSort (fun a b : List Char => a ≤ b) l1
      = List.insertionSort (fun a b : List Char => a ≤ b) l2 :=
  List.eq_of_perm_of_sorted
    (((List.perm_insertionSort _ l1).trans h).trans
      (List.perm_insertionSort _ l2).symm)
    (List.sorted_insertionSort _ l1)
    (List.sorted_insertionSort _ l2)

theorem marshalLabelMap_perm {l1 l2 : List (List Char × List Char)}
    (h : l1.Perm l2) : marshalLabelMap l1 = marshalLabelMap l2 := by
  unfold marshalLabelMap
  rw [insertionSort_eq_of_perm (h.map _)]

theorem marshalResourceFilter_labelOrder {f1 f2 : ResourceFilter}
    (h : SameUpToLabelOrder f1 f2) :
    marshalResourceFilter f1 = marshalResourceFilter f2 := by
  obtain ⟨hn, hc, he, hp⟩ := h
  unfold marshalResourceFilter marshalSelector
  rw [hn, hc, he, marshalLabelMap_perm hp]

theorem map_marshalResourceFilter_labelOrder {l1 l2 : List ResourceFilter}
    (h : List.Forall₂ SameUpToLabelOrder l1 l2) :
    l1.map marshalResourceFilter = l2.map marshalResourceFilter := by
  induction h with
  | nil => rfl
  | cons hf _ ih => simp [marshalResourceFilter_labelOrder hf, ih]

/-- C7: the Tetragon tracing-policy name is deterministic — equal on
every run for a fixed trap — and invariant under reordering of the
`matchLabels` entries of the trap's resource filters (the canonical
encoding sorts map entries before hashing). -/
theorem tracingPolicyName_deterministic :
    (∀ trap : Trap, GenerateTetragonTracingPolicyName trap
        = GenerateTetragonTracingPolicyName trap)
    ∧ (∀ t1 t2 : Trap,
        t1.filesystemHoneytoken = t2.filesystemHoneytoken →
        t1.decoyDeployment = t2.decoyDeployment →
        t1.captorDeployment = t2.captorDeployment →
        List.Forall₂ SameUpToLabelOrder t1.matchResources.any
          t2.matchResources.any →
        GenerateTetragonTracingPolicyName t1
          = GenerateTetragonTracingPolicyName t2) := by
  refine ⟨fun _ => rfl, ?_⟩
  intro t1 t2 hfs hdd hcd hperm
  unfold GenerateTetragonTracingPolicyName marshalTrap
  rw [hfs, hdd, hcd, map_marshalResourceFilter_labelOrder hperm]

/-- C7 witness: swapping the two `matchLabels` entries of a filter does
not change the name. -/
theorem tracingPolicyName_deterministic_witness :
    GenerateTetragonTracingPolicyName
        { filesystemHoneytoken :=
            { filePath := str "/tmp/a", fileContent := str "c", readOnly := true }
          matchResources :=
            { any := [{ namespaces := [str "default"]
                        selector := { matchLabels := [(str "app", str "nginx"), (str "tier", str "web")], matchExpressions := [] }
                        containerSelector := str "nginx" }] }
          decoyDeployment := { strategy := str "volumeMount" }
          captorDeployment := { strategy := str "tetragon" } }
      = GenerateTetragonTracingPolicyName
        { filesystemHoneytoken :=
            { filePath := str "/tmp/a", fileContent := str "c", readOnly := true }
          matchResources :=
            { any := [{ namespaces := [str "default"]
                        selector := { matchLabels := [(str "tier", str "web"), (str "app", str "nginx")], matchExpressions := [] }
                        containerSelector := str "nginx" }] }
          decoyDeployment := { strategy := str "volumeMount" }
          captorDeployment := { strategy := str "tetragon" } } :=
  tracingPolicyName_deterministic.2 _ _ rfl rfl rfl
    (List.Forall₂.cons ⟨rfl, rfl, rfl, List.Perm.swap _ _ _⟩ List.Forall₂.nil)

/-! ## Normalization and deduplication (C6) -/

theorem matchClasses_decompose {cls : List CClass} {s m r : List Char}
    (h : matchClasses cls s = some (m, r)) :
    s = m ++ r ∧ m.length = cls.length := by
  induction cls generalizing s m r with
  | nil =>
      simp only [matchClasses, Option.some.injEq, Prod.mk.injEq] at h
      obtain ⟨rfl, rfl⟩ := h
      simp
  | cons cl cls ih =>
      cases s with
      | nil => simp [matchClasses] at h
      | cons a s' =>
          simp only [matchClasses] at h
          by_cases hm : cclassMatch cl a = true
          · rw [if_pos hm, Option.map_eq_some'] at h
            obtain ⟨⟨m', r'⟩, hp, hfp⟩ := h
            simp only [Prod.mk.injEq] at hfp
            obtain ⟨rfl, rfl⟩ := hfp
            obtain ⟨hs, hl⟩ := ih hp
            exact ⟨by simp [hs], by simp [hl]⟩
          · rw [if_neg hm] at h; exact absurd h (by simp)

theorem matchClasses_take {cls : List CClass} {s m r : List Char}
    (h : matchClasses cls s = some (m, r)) (X : List Char) :
    matchClasses cls (m ++ X) = some (m, X) := by
  induction cls generalizing s m r with
  | nil =>
      simp only [matchClasses, Option.some.injEq, Prod.mk.injEq] at h
      obtain ⟨rfl, rfl⟩ := h
      simp [matchClasses]
  | cons cl cls ih =>
      cases s with
      | nil => simp [matchClasses] at h
      | cons a s' =>
          simp only [matchClasses] at h
          by_cases hm : cclassMatch cl a = true
          · rw [if_pos hm, Option.map_eq_some'] at h
            obtain ⟨⟨m', r'⟩, hp, hfp⟩ := h
            simp only [Prod.mk.injEq] at hfp
            obtain ⟨rfl, rfl⟩ := hfp
            simp only [List.cons_append, List.append_eq, matchClasses, hm,
              if_true, ih hp]
            rfl
          · rw [if_neg hm] at h; exact absurd h (by simp)

theorem matchClasses_lits (cs rest : List Char) :
    matchClasses (lits cs) (cs ++ rest) = some (cs, rest) := by
  induction cs with
  | nil => simp [lits, matchClasses]
  | cons c cs ih =>
      have ih' : matchClasses (List.map CClass.lit cs) (cs ++ rest)
          = some (cs, rest) := by simpa [lits] using ih
      simp [lits, matchClasses, cclassMatch, ih']

theorem matchClasses_append {A : List CClass} {s mA rA : List Char}
    (B : List CClass) (hA : matchClasses A s = some (mA, rA)) :
    matchClasses (A ++ B) s
      = (matchClasses B rA).map (fun p => (mA ++ p.1, p.2)) := by
  induction A generalizing s mA rA with
  | nil =>
      simp only [matchClasses, Option.some.injEq, Prod.mk.injEq] at hA
      obtain ⟨rfl, rfl⟩ := hA
      simp only [List.nil_append]
      cases h : matchClasses B s <;> simp [h]
  | cons cl cls ih =>
      cases s with
      | nil => simp [matchClasses] at hA
      | cons a s' =>
          simp only [matchClasses] at hA
          by_cases hm : cclassMatch cl a = true
          · rw [if_pos hm, Option.map_eq_some'] at hA
            obtain ⟨⟨m', r'⟩, hp, hfp⟩ := hA
            simp only [Prod.mk.injEq] at hfp
            obtain ⟨rfl, rfl⟩ := hfp
            rw [List.cons_append]
            simp only [matchClasses, hm, if_true]
            rw [ih hp]
            cases h3 : matchClasses B r' <;> simp [h3]
          · rw [if_neg hm] at hA; exact absurd hA (by simp)

theorem matchClasses_digits (f rest : List Char)
    (hd : ∀ c ∈ f, c.isDigit = true) :
    matchClasses (List.replicate f.length CClass.digit) (f ++ rest)
      = some (f, rest) := by
  induction f with
  | nil => simp [matchClasses]
  | cons c f' ih =>
      have hc := hd c (List.mem_cons_self c f')
      have hf' : ∀ c ∈ f', c.isDigit = true :=
        fun x hx => hd x (List.mem_cons_of_mem c hx)
      simp [matchClasses, cclassMatch, hc, ih hf']

theorem timePatternMatchAt_occurrence (ts f s : List Char)
    (hts : matchClasses timeStampClasses ts = some (ts, []))
    (hlen : f.length = 9) (hd : ∀ c ∈ f, c.isDigit = true) :
    timePatternMatchAt
        (str "\"time\":\"" ++ (ts ++ (('.' :: f) ++ (str "Z\"" ++ s))))
      = some (str "\"time\":\"" ++ (ts ++ str "Z\""), s) := by
  have hts' : matchClasses timeStampClasses (ts ++ (('.' :: f) ++ (str "Z\"" ++ s)))
      = some (ts, ('.' :: f) ++ (str "Z\"" ++ s)) :=
    matchClasses_take hts _
  have hg1 : matchClasses timeGroup1
      (str "\"time\":\"" ++ (ts ++ (('.' :: f) ++ (str "Z\"" ++ s))))
      = some (str "\"time\":\"" ++ ts, ('.' :: f) ++ (str "Z\"" ++ s)) := by
    unfold timeGroup1
    rw [matchClasses_append timeStampClasses (matchClasses_lits _ _), hts']
    rfl
  have h9 : matchClasses (List.replicate 9 CClass.digit)
      (f ++ (str "Z\"" ++ s)) = some (f, str "Z\"" ++ s) := by
    have := matchClasses_digits f (str "Z\"" ++ s) hd
    rwa [hlen] at this
  have hdot : cclassMatch (CClass.lit '.') '.' = true := by decide
  have hfrac : matchClasses timeFraction (('.' :: f) ++ (str "Z\"" ++ s))
      = some ('.' :: f, str "Z\"" ++ s) := by
    show matchClasses (CClass.lit '.' :: List.replicate 9 CClass.digit)
        ('.' :: (f ++ (str "Z\"" ++ s))) = _
    simp only [matchClasses, hdot, if_true, h9]
    rfl
  have hg2 : matchClasses timeGroup2 (str "Z\"" ++ s) = some (str "Z\"", s) :=
    matchClasses_lits _ _
  unfold timePatternMatchAt
  rw [hg1, Option.some_bind, hfrac, Option.some_bind, hg2]
  simp [List.append_assoc]

theorem timePatternMatchAt_rest_lt {s kept rest : List Char}
    (h : timePatternMatchAt s = some (kept, rest)) :
    rest.length < s.length := by
  unfold timePatternMatchAt at h
  rw [Option.bind_eq_some] at h
  obtain ⟨p1, h1, h⟩ := h
  rw [Option.bind_eq_some] at h
  obtain ⟨p2, h2, h⟩ := h
  rw [Option.map_eq_some'] at h
  obtain ⟨p3, h3, hfp⟩ := h
  obtain ⟨d1, l1⟩ := matchClasses_decompose (m := p1.1) (r := p1.2)
    (by rw [h1])
  obtain ⟨d2, l2⟩ := matchClasses_decompose (m := p2.1) (r := p2.2)
    (by rw [h2])
  obtain ⟨d3, l3⟩ := matchClasses_decompose (m := p3.1) (r := p3.2)
    (by rw [h3])
  have hrest : rest = p3.2 := (Prod.mk.injEq .. |>.mp hfp).2.symm
  have hlen1 : timeGroup1.length = 27 := by decide
  subst hrest
  rw [d1, d2, d3]
  simp only [List.length_append]
  omega

theorem replaceAllF_irrel :
    ∀ fuel1 fuel2 (s : List Char), s.length < fuel1 → s.length < fuel2 →
      replaceAllTimePatternF fuel1 s = replaceAllTimePatternF fuel2 s := by
  intro fuel1
  induction fuel1 with
  | zero => intro fuel2 s h1 _; omega
  | succ k ih =>
      intro fuel2 s h1 h2
      cases fuel2 with
      | zero => omega
      | succ k2 =>
          cases s with
          | nil => rfl
          | cons c cs =>
              cases hm : timePatternMatchAt (c :: cs) with
              | some p =>
                  obtain ⟨kept, rest⟩ := p
                  have hlt := timePatternMatchAt_rest_lt hm
                  simp only [replaceAllTimePatternF, hm]
                  simp only [List.length_cons] at h1 h2 hlt
                  rw [ih k2 rest (by omega) (by omega)]
              | none =>
                  simp only [replaceAllTimePatternF, hm]
                  simp only [List.length_cons] at h1 h2
                  rw [ih k2 cs (by omega) (by omega)]

theorem replaceAll_match {s0 kept rest : List Char}
    (h : timePatternMatchAt s0 = some (kept, rest)) :
    replaceAllTimePattern s0 = kept ++ replaceAllTimePattern rest := by
  cases s0 with
  | nil =>
      have hnone : timePatternMatchAt [] = none := by decide
      rw [hnone] at h
      exact Option.noConfusion h
  | cons c cs =>
      unfold replaceAllTimePattern
      have hlt := timePatternMatchAt_rest_lt h
      simp only [List.length_cons, replaceAllTimePatternF, h]
      rw [replaceAllF_irrel (cs.length + 1) (rest.length + 1) rest
        (by simp at hlt; omega) (by omega)]

theorem replaceAll_nomatch {c : Char} {cs : List Char}
    (h : timePatternMatchAt (c :: cs) = none) :
    replaceAllTimePattern (c :: cs) = c :: replaceAllTimePattern cs := by
  unfold replaceAllTimePattern
  simp only [List.length_cons, replaceAllTimePatternF, h]

theorem replaceAll_append_of_clean (p : List Char) :
    ∀ rest : List Char,
      (∀ i < p.length, timePatternMatchAt ((p ++ rest).drop i) = none) →
      replaceAllTimePattern (p ++ rest) = p ++ replaceAllTimePattern rest := by
  induction p with
  | nil => intro rest _; simp
  | cons c p' ih =>
      intro rest hp
      have h0 : timePatternMatchAt (c :: (p' ++ rest)) = none := by
        have := hp 0 (by simp)
        simpa using this
      rw [List.cons_append, replaceAll_nomatch h0, ih rest ?_]
      · simp
      · intro i hi
        have := hp (i + 1) (by simp; omega)
        simpa using this

theorem readTetragonLoop_nodup_inv
    (parsePolicy : List Char → Option (List Char)) :
    ∀ (lines cache emitted : List (List Char)),
      (∀ e ∈ emitted, md5Hex e ∈ cache) → emitted.Nodup →
      ((readTetragonLoop parsePolicy lines cache emitted).2).Nodup := by
  intro lines
  induction lines with
  | nil => intro cache emitted _ hnd; exact hnd
  | cons line rest ih =>
      intro cache emitted hinv hnd
      simp only [readTetragonLoop]
      by_cases hc : goContains line TetragonPolicyPrefix = true
      · simp only [hc, not_true_eq_false, if_false]
        cases hp : parsePolicy (replaceAllTimePattern line) with
        | none => exact ih cache emitted hinv hnd
        | some policyName =>
            by_cases hpre : goHasPrefix policyName TetragonPolicyPrefix = true
            · simp only [hpre, not_true_eq_false, if_false]
              by_cases hdup : md5Hex (replaceAllTimePattern line) ∈ cache
              · simp only [hdup, if_true]
                exact ih cache emitted hinv hnd
              · simp only [hdup, if_false]
                apply ih
                · intro e he
                  rcases List.mem_append.mp he with he' | he'
                  · exact List.mem_append_left _ (hinv e he')
                  · simp only [List.mem_singleton] at he'
                    subst he'
                    exact List.mem_append_right _ (List.mem_singleton.mpr rfl)
                · rw [List.nodup_append]
                  refine ⟨hnd, List.nodup_singleton _, ?_⟩
                  intro a ha hb
                  simp only [List.mem_singleton] at hb
                  subst hb
                  exact hdup (hinv _ ha)
            · simp only [hpre, not_false_eq_true, if_true]
              exact ih cache emitted hinv hnd
      · simp only [Bool.not_eq_true] at hc
        simp only [hc, Bool.false_eq_true, not_false_eq_true, if_true]
        exact ih cache emitted hinv hnd

/-- C6: two raw log lines that differ only in the nine-digit sub-second
fraction of their `time` timestamp (same prefix, timestamp core, and
suffix; no pattern occurrence starting inside the prefix) normalize to
the same string and hence the same content hash; and the deduplicating
scraping loop never emits two events for the same normalized line. -/
theorem normalization_dedup (p ts f1 f2 s : List Char)
    (hts : matchClasses timeStampClasses ts = some (ts, []))
    (h1 : f1.length = 9) (hd1 : ∀ c ∈ f1, c.isDigit = true)
    (h2 : f2.length = 9) (hd2 : ∀ c ∈ f2, c.isDigit = true)
    (hp1 : ∀ i < p.length, timePatternMatchAt ((mkLine p ts f1 s).drop i) = none)
    (hp2 : ∀ i < p.length, timePatternMatchAt ((mkLine p ts f2 s).drop i) = none) :
    (replaceAllTimePattern (mkLine p ts f1 s)
        = replaceAllTimePattern (mkLine p ts f2 s)
      ∧ md5Hex (replaceAllTimePattern (mkLine p ts f1 s))
        = md5Hex (replaceAllTimePattern (mkLine p ts f2 s)))
    ∧ ∀ (parsePolicy : List Char → Option (List Char))
        (lines : List (List Char)),
        ((readTetragonLoop parsePolicy lines [] []).2).Nodup := by
  have key : ∀ f : List Char, f.length = 9 → (∀ c ∈ f, c.isDigit = true) →
      (∀ i < p.length, timePatternMatchAt ((mkLine p ts f s).drop i) = none) →
      replaceAllTimePattern (mkLine p ts f s)
        = p ++ ((str "\"time\":\"" ++ (ts ++ str "Z\""))
            ++ replaceAllTimePattern s) := by
    intro f hlen hd hp
    unfold mkLine at hp ⊢
    rw [replaceAll_append_of_clean p _ hp]
    congr 1
    have hocc := timePatternMatchAt_occurrence ts f s hts hlen hd
    have hshape : str "\"time\":\"" ++ ts ++ ('.' :: f) ++ (str "Z\"" ++ s)
        = str "\"time\":\"" ++ (ts ++ (('.' :: f) ++ (str "Z\"" ++ s))) := by
      simp [List.append_assoc]
    rw [hshape, replaceAll_match hocc]
  have e1 := key f1 h1 hd1 hp1
  have e2 := key f2 h2 hd2 hp2
  refine ⟨⟨?_, ?_⟩, ?_⟩
  · rw [e1, e2]
  · rw [e1, e2]
  · intro parsePolicy lines
    exact readTetragonLoop_nodup_inv parsePolicy lines [] []
      (fun e he => absurd he (List.not_mem_nil e)) List.nodup_nil

/-- C6 witness: a concrete line pair differing only in the sub-second
fraction. -/
theorem normalization_dedup_witness :
    replaceAllTimePattern
        (mkLine (str "\x7b") (str "2025-01-02T03:04:05") (str "123456789")
          (str ",\x22x\x22:1\x7d"))
      = replaceAllTimePattern
        (mkLine (str "\x7b") (str "2025-01-02T03:04:05") (str "987654321")
          (str ",\x22x\x22:1\x7d")) :=
  ((normalization_dedup (str "\x7b") (str "2025-01-02T03:04:05")
      (str "123456789") (str "987654321") (str ",\x22x\x22:1\x7d")
      (by decide) (by decide) (by decide) (by decide) (by decide)
      (by decide) (by decide)).1).1

/-! ## The trigger endpoint and the debouncer (C5) -/

theorem debounceRun_window (rest : List Nat) (t0 : Nat) :
    ∀ d : Nat, t0 + DEBOUNCE_SECONDS ≤ d →
      (∀ t ∈ rest, t0 ≤ t ∧ t < t0 + DEBOUNCE_SECONDS) →
      (debounceRun rest (some d)).length = 1 := by
  induction rest with
  | nil => intro d _ _; rfl
  | cons t ts ih =>
      intro d hd h
      have ht := h t (List.mem_cons_self t ts)
      have hts : ∀ u ∈ ts, t0 ≤ u ∧ u < t0 + DEBOUNCE_SECONDS :=
        fun u hu => h u (List.mem_cons_of_mem t hu)
      have hnf : ¬ d ≤ t := by omega
      simp only [debounceRun, debouncerReceive, hnf, if_false]
      exact ih (t + DEBOUNCE_SECONDS) (by omega) hts

theorem chain'_head_gap {t : Nat} {ts : List Nat}
    (h : List.Chain' (fun a b => a + DEBOUNCE_SECONDS < b) (t :: ts)) :
    ∀ u, ts.head? = some u → t + DEBOUNCE_SECONDS ≤ u := by
  intro u hu
  cases ts with
  | nil => simp at hu
  | cons v vs =>
      simp only [List.head?_cons, Option.some.injEq] at hu
      subst hu
      exact le_of_lt (List.chain'_cons.mp h).1

theorem chain'_tail_gap {t : Nat} {ts : List Nat}
    (h : List.Chain' (fun a b => a + DEBOUNCE_SECONDS < b) (t :: ts)) :
    List.Chain' (fun a b => a + DEBOUNCE_SECONDS < b) ts := by
  cases ts with
  | nil => exact List.chain'_nil
  | cons v vs => exact (List.chain'_cons.mp h).2

theorem debounceRun_spaced (ts : List Nat) :
    ∀ d : Nat, (∀ u, ts.head? = some u → d ≤ u) →
      List.Chain' (fun a b => a + DEBOUNCE_SECONDS < b) ts →
      (debounceRun ts (some d)).length = ts.length + 1 := by
  induction ts with
  | nil => intro d _ _; rfl
  | cons t ts ih =>
      intro d hd hchain
      have hdt : d ≤ t := hd t rfl
      simp only [debounceRun, debouncerReceive, hdt, if_true, List.length_cons]
      rw [ih (t + DEBOUNCE_SECONDS) (chain'_head_gap hchain)
        (chain'_tail_gap hchain)]

/-- C5: the authenticated trigger endpoint always answers 202 and only
sets the capacity-one signal channel (triggers arriving while a signal is
pending leave the state unchanged); each signal the debouncer receives
replaces any running timer by a fresh 5-second one; a scan covers the
last 60 seconds of log history; and over a time-ordered trigger sequence,
triggers all inside one 5-second window produce exactly one scan while
triggers spaced more than 5 seconds apart produce one scan each. -/
theorem debouncer_properties :
    (∀ chan : TriggerChannel, handleTetragon true chan = (202, ⟨true⟩))
    ∧ (∀ chan : TriggerChannel, chan.pending = true →
        handleTetragon true chan = (202, chan))
    ∧ (∀ now timer, debouncerReceive now timer = some (now + DEBOUNCE_SECONDS))
    ∧ DEBOUNCE_SECONDS = 5
    ∧ scanSinceSeconds = 60
    ∧ (∀ (t0 : Nat) (rest : List Nat),
        (∀ t ∈ rest, t0 ≤ t ∧ t < t0 + DEBOUNCE_SECONDS) →
        (debounceScans (t0 :: rest)).length = 1)
    ∧ (∀ triggers : List Nat,
        List.Chain' (fun a b => a + DEBOUNCE_SECONDS < b) triggers →
        (debounceScans triggers).length = triggers.length) := by
  refine ⟨?_, ?_, fun _ _ => rfl, rfl, rfl, ?_, ?_⟩
  · intro chan; rfl
  · rintro ⟨p⟩ hp; cases hp; rfl
  · intro t0 rest h
    show (debounceRun rest (debouncerReceive t0 none)).length = 1
    exact debounceRun_window rest t0 (t0 + DEBOUNCE_SECONDS) le_rfl h
  · intro triggers hchain
    cases triggers with
    | nil => rfl
    | cons t ts =>
        show (debounceRun ts (debouncerReceive t none)).length = (t :: ts).length
        rw [List.length_cons]
        exact debounceRun_spaced ts (t + DEBOUNCE_SECONDS)
          (chain'_head_gap hchain) (chain'_tail_gap hchain)

/-- C5 witness: four triggers in one window give one scan; three spaced
triggers give three scans. -/
theorem debouncer_properties_witness :
    (debounceScans [10, 11, 12, 13]).length = 1 ∧
    (debounceScans [10, 20, 30]).length = 3 ∧
    handleTetragon true ⟨true⟩ = (202, ⟨true⟩) :=
  ⟨debouncer_properties.2.2.2.2.2.1 10 [11, 12, 13] (by decide),
   debouncer_properties.2.2.2.2.2.2 [10, 20, 30]
     (List.chain'_cons.mpr ⟨by simp [DEBOUNCE_SECONDS],
       List.chain'_cons.mpr ⟨by simp [DEBOUNCE_SECONDS],
         List.chain'_singleton 30⟩⟩),
   debouncer_properties.2.1 ⟨true⟩ rfl⟩

/-! ## Selector composition of the Tetragon tracing policy (C4) -/

theorem assocLookup_append (a b : List (List Char × List Char)) (k : List Char) :
    assocLookup (a ++ b) k
      = match assocLookup a k with
        | some v => some v
        | none => assocLookup b k := by
  induction a with
  | nil => simp [assocLookup]
  | cons kv rest ih =>
      by_cases h : kv.1 = k <;> simp [assocLookup, h, ih]

theorem assocLookup_not_found {m : List (List Char × List Char)}
    {key : List Char} (h : m.any (fun kv => kv.1 = key) = false) :
    assocLookup m key = none := by
  induction m with
  | nil => rfl
  | cons kv rest ih =>
      simp only [List.any_cons, Bool.or_eq_false_iff] at h
      have h1 : kv.1 ≠ key := by
        intro hk; rw [hk] at h; simp at h
      simp [assocLookup, h1, ih h.2]

theorem assocLookup_map_replace {m : List (List Char × List Char)}
    {key value k : List Char} (hne : key ≠ k) :
    assocLookup (m.map (fun kv => if kv.1 = key then (key, value) else kv)) k
      = assocLookup m k := by
  induction m with
  | nil => rfl
  | cons kv rest ih =>
      by_cases h : kv.1 = key
      · simp [assocLookup, h, hne, ih]
      · simp only [List.map_cons]
        rw [show (if kv.1 = key then (key, value) else kv) = kv from if_neg h]
        by_cases h2 : kv.1 = k <;> simp [assocLookup, h2, ih]

theorem assocLookup_map_replace_found {m : List (List Char × List Char)}
    {key value : List Char} (hmem : m.any (fun kv => kv.1 = key) = true) :
    assocLookup (m.map (fun kv => if kv.1 = key then (key, value) else kv)) key
      = some value := by
  induction m with
  | nil => simp at hmem
  | cons kv rest ih =>
      by_cases h : kv.1 = key
      · simp [assocLookup, h]
      · simp only [List.any_cons, Bool.or_eq_true] at hmem
        rcases hmem with hmem | hmem

        · exact absurd (by simpa using hmem) h
        · simp [assocLookup, h, ih hmem]

theorem assocLookup_mapAssign (m : List (List Char × List Char))
    (key value k : List Char) :
    assocLookup (mapAssign m key value) k
      = if key = k then some value else assocLookup m k := by
  by_cases hmem : m.any (fun kv => kv.1 = key)
  · simp only [mapAssign, hmem, if_true]
    by_cases hk : key = k
    · subst hk; simp [assocLookup_map_replace_found hmem]
    · simp [hk, assocLookup_map_replace hk]
  · simp only [Bool.not_eq_true] at hmem
    simp only [mapAssign, hmem, Bool.false_eq_true, if_false]
    rw [assocLookup_append]
    by_cases hk : key = k
    · subst hk
      simp [assocLookup_not_found hmem, assocLookup]
    · have hk' : key ≠ k := hk
      cases h : assocLookup m k <;> simp [h, assocLookup, hk, Ne.symm hk']

theorem collectPodSelectorLabels_eq_foldl_flatten (filters : List ResourceFilter) :
    collectPodSelectorLabels filters
      = ((filters.map (fun f => f.selector.matchLabels)).flatten).foldl
          (fun m kv => mapAssign m kv.1 kv.2) [] := by
  unfold collectPodSelectorLabels
  generalize ([] : List (List Char × List Char)) = init
  induction filters generalizing init with
  | nil => rfl
  | cons f rest ih => simp [List.foldl_append, ih]

theorem assocLookup_foldl_mapAssign (pairs : List (List Char × List Char))
    (init : List (List Char × List Char)) (k : List Char) :
    assocLookup (pairs.foldl (fun m kv => mapAssign m kv.1 kv.2) init) k
      = match assocLookup pairs.reverse k with
        | some v => some v
        | none => assocLookup init k := by
  induction pairs generalizing init with
  | nil => simp [assocLookup]
  | cons kv rest ih =>
      rw [List.foldl_cons, ih, List.reverse_cons, assocLookup_append]
      cases h : assocLookup rest.reverse k with
      | some v => simp
      | none =>
          rw [assocLookup_mapAssign]
          by_cases hk : kv.1 = k <;> simp [assocLookup, hk]

theorem collectContainerSelectors_sentinel (exprs : List TPRequirement) :
    ∀ filters : List ResourceFilter,
      (∃ f ∈ filters, ContainerSelectorSelectsAll f.containerSelector = true) →
      collectContainerSelectors exprs filters = [] := by
  intro filters
  induction filters generalizing exprs with
  | nil => rintro ⟨f, hf, _⟩; simp at hf
  | cons f rest ih =>
      rintro ⟨g, hg, hsel⟩
      by_cases hf : ContainerSelectorSelectsAll f.containerSelector = true
      · simp [collectContainerSelectors, hf]
      · rcases List.mem_cons.mp hg with rfl | hg'
        · exact absurd hsel hf
        · simp only [collectContainerSelectors, hf, Bool.false_eq_true, if_false]
          exact ih _ ⟨g, hg', hsel⟩

theorem collectContainerSelectors_no_sentinel
    (k o : List Char) (filters : List ResourceFilter) :
    ∀ vals : List (List Char),
      (∀ f ∈ filters, ContainerSelectorSelectsAll f.containerSelector = false) →
      collectContainerSelectors [⟨k, o, vals⟩] filters
        = [⟨k, o, (filters.map (fun f => f.containerSelector)).foldl
            (fun acc x => if x ∈ acc then acc else acc ++ [x]) vals⟩] := by
  induction filters with
  | nil => intro vals _; rfl
  | cons f rest ih =>
      intro vals h
      have hf := h f (List.mem_cons_self f rest)
      have hrest : ∀ g ∈ rest, ContainerSelectorSelectsAll g.containerSelector = false :=
        fun g hg => h g (List.mem_cons_of_mem f hg)
      by_cases hmem : f.containerSelector ∈ vals
      · simp only [collectContainerSelectors, hf, Bool.false_eq_true, if_false,
          List.isEmpty_cons, hmem, if_true, List.map_cons, List.foldl_cons]
        exact ih _ hrest
      · simp only [collectContainerSelectors, hf, Bool.false_eq_true, if_false,
          List.isEmpty_cons, hmem, if_false, List.map_cons, List.foldl_cons]
        exact ih _ hrest

/-- C4: the generated tracing policy's pod-selector matchLabels are the
union of the matchLabels of every resource filter (a key maps to the
value of its last binding, later filters overriding earlier ones as Go
map assignment does); the container selector is empty whenever some
filter's containerSelector is the match-all sentinel, and otherwise is
the single `In` expression on the container-name key `name` whose values
are the distinct containerSelector strings of the filters. -/
theorem generateTetragonTracingPolicy_selectors
    (dp nm : List Char) (trap : Trap) :
    (∀ k, assocLookup
        ((generateTetragonTracingPolicy dp trap nm).podSelectorMatchLabels) k
      = unionLabelValue trap k)
    ∧ ((∃ f ∈ trap.matchResources.any,
          ContainerSelectorSelectsAll f.containerSelector = true) →
        (generateTetragonTracingPolicy dp trap nm).containerSelectorMatchExpressions
          = [])
    ∧ (trap.matchResources.any ≠ [] →
        (∀ f ∈ trap.matchResources.any,
          ContainerSelectorSelectsAll f.containerSelector = false) →
        (generateTetragonTracingPolicy dp trap nm).containerSelectorMatchExpressions
          = [⟨str "name", str "In",
              firstOccDedup (trap.matchResources.any.map
                (fun f => f.containerSelector))⟩]) := by
  refine ⟨?_, ?_, ?_⟩
  · intro k
    show assocLookup (collectPodSelectorLabels trap.matchResources.any) k = _
    rw [collectPodSelectorLabels_eq_foldl_flatten, assocLookup_foldl_mapAssign]
    unfold unionLabelValue allLabelPairs
    cases h : assocLookup
        ((trap.matchResources.any.map (fun f => f.selector.matchLabels)).flatten).reverse
        k <;> simp [h, assocLookup]
  · intro hex
    exact collectContainerSelectors_sentinel [] trap.matchResources.any hex
  · intro hne hall
    show collectContainerSelectors [] trap.matchResources.any = _
    cases hany : trap.matchResources.any with
    | nil => exact absurd hany hne
    | cons f0 rest =>
        rw [hany] at hall
        have hf0 := hall f0 (List.mem_cons_self f0 rest)
        have hrest : ∀ g ∈ rest, ContainerSelectorSelectsAll g.containerSelector = false :=
          fun g hg => hall g (List.mem_cons_of_mem f0 hg)
        have hstep : collectContainerSelectors [] (f0 :: rest)
            = collectContainerSelectors
                [⟨str "name", str "In", [f0.containerSelector]⟩] rest := by
          simp [collectContainerSelectors, hf0]
        rw [hstep, collectContainerSelectors_no_sentinel _ _ rest _ hrest]
        unfold firstOccDedup
        simp [List.foldl_map]

/-- C4 witness: a trap with two literal container selectors (one
repeated) and one with the `*` sentinel. -/
theorem generateTetragonTracingPolicy_selectors_witness :
    assocLookup
        ((generateTetragonTracingPolicy (str "dp")
          { filesystemHoneytoken :=
              { filePath := str "/tmp/a", fileContent := str "c", readOnly := false }
            matchResources :=
              { any := [{ namespaces := []
                          selector := { matchLabels := [(str "app", str "nginx")], matchExpressions := [] }
                          containerSelector := str "nginx" },
                        { namespaces := []
                          selector := { matchLabels := [(str "tier", str "web")], matchExpressions := [] }
                          containerSelector := str "nginx" },
                        { namespaces := []
                          selector := { matchLabels := [], matchExpressions := [] }
                          containerSelector := str "sidecar" }] }
            decoyDeployment := { strategy := str "volumeMount" }
            captorDeployment := { strategy := str "tetragon" } }
          (str "tp")).podSelectorMatchLabels) (str "app") = some (str "nginx") ∧
    (generateTetragonTracingPolicy (str "dp")
        { filesystemHoneytoken :=
            { filePath := str "/tmp/a", fileContent := str "c", readOnly := false }
          matchResources :=
            { any := [{ namespaces := []
                        selector := { matchLabels := [(str "app", str "nginx")], matchExpressions := [] }
                        containerSelector := str "nginx" },
                      { namespaces := []
                        selector := { matchLabels := [(str "tier", str "web")], matchExpressions := [] }
                        containerSelector := str "nginx" },
                      { namespaces := []
                        selector := { matchLabels := [], matchExpressions := [] }
                        containerSelector := str "sidecar" }] }
          decoyDeployment := { strategy := str "volumeMount" }
          captorDeployment := { strategy := str "tetragon" } }
        (str "tp")).containerSelectorMatchExpressions
      = [⟨str "name", str "In", [str "nginx", str "sidecar"]⟩] ∧
    (generateTetragonTracingPolicy (str "dp")
        { filesystemHoneytoken :=
            { filePath := str "/tmp/a", fileContent := str "c", readOnly := false }
          matchResources :=
            { any := [{ namespaces := []
                        selector := { matchLabels := [], matchExpressions := [] }
                        containerSelector := str "*" }] }
          decoyDeployment := { strategy := str "volumeMount" }
          captorDeployment := { strategy := str "tetragon" } }
        (str "tp")).containerSelectorMatchExpressions = [] := by
  refine ⟨?_, ?_, ?_⟩
  · exact ((generateTetragonTracingPolicy_selectors (str "dp") (str "tp") _).1
      (str "app")).trans (by decide)
  · exact ((generateTetragonTracingPolicy_selectors (str "dp") (str "tp") _).2.2
      (by decide) (by decide)).trans (by decide)
  · exact (generateTetragonTracingPolicy_selectors (str "dp") (str "tp") _).2.1
      ⟨_, List.mem_singleton.mpr rfl, by decide⟩

/-! ## Resolution failure does not suppress alerts (C8) -/

/-- C8: when the tracing-policy lookup fails for an event (the resolver
returns an error), the mapped alert's `deception_policy_name` is null and
the alert is still emitted by the pipeline (it is in the emitted list
whenever the fingerprint filter does not drop it). -/
theorem resolutionFailure_alert_still_emitted
    (resolve : List Char → Except (List Char) (List Char))
    (tpn msg : List Char) (e : TetragonEvent) (events : List TetragonEvent)
    (he : extractTracingPolicyName e = some tpn)
    (hres : resolve tpn = .error msg)
    (hmem : e ∈ events)
    (hnf : IsFilteredEvent (MapTetragonEvent resolve e) KoneyFingerprint = false) :
    (MapTetragonEvent resolve e).deceptionPolicyName = none ∧
    MapTetragonEvent resolve e ∈
      processRecentAlerts resolve KoneyFingerprint events := by
  constructor
  · simp [MapTetragonEvent, he, hres]
  · unfold processRecentAlerts
    apply List.mem_filter.mpr
    refine ⟨List.mem_map_of_mem _ hmem, ?_⟩
    simp [hnf]

/-- C8 witness: a concrete event whose resolver always fails is emitted
with a null deception-policy name. -/
theorem resolutionFailure_alert_still_emitted_witness :
    (MapTetragonEvent (fun _ => .error (str "not found"))
        { processKprobe := some
            { policyName := some (str "koney-tracing-policy-abc")
              functionName := str "security_file_permission"
              args := [{ fileArg := some { path := some (str "/tmp/a") } }]
              process := some
                { pid := 7, cwd := str "/", binary := str "/usr/bin/cat"
                  arguments := str "/tmp/a" }
              pod := none }
          time := str "2025-01-02T03:04:05Z" }).deceptionPolicyName = none ∧
    MapTetragonEvent (fun _ => .error (str "not found"))
        { processKprobe := some
            { policyName := some (str "koney-tracing-policy-abc")
              functionName := str "security_file_permission"
              args := [{ fileArg := some { path := some (str "/tmp/a") } }]
              process := some
                { pid := 7, cwd := str "/", binary := str "/usr/bin/cat"
                  arguments := str "/tmp/a" }
              pod := none }
          time := str "2025-01-02T03:04:05Z" } ∈
      processRecentAlerts (fun _ => .error (str "not found")) KoneyFingerprint
        [{ processKprobe := some
             { policyName := some (str "koney-tracing-policy-abc")
               functionName := str "security_file_permission"
               args := [{ fileArg := some { path := some (str "/tmp/a") } }]
               process := some
                 { pid := 7, cwd := str "/", binary := str "/usr/bin/cat"
                   arguments := str "/tmp/a" }
               pod := none }
           time := str "2025-01-02T03:04:05Z" }] :=
  resolutionFailure_alert_still_emitted _ (str "koney-tracing-policy-abc")
    (str "not found") _ _ rfl rfl (List.mem_singleton.mpr rfl) (by decide)

end Koney
